import Mathlib

/-!
Verification of the pumpfun-sniper event pipeline.

This file gives a shallow embedding of the core of the repository:

* `helius_ws.py`: the base58 encoder `HeliusWSListener._bytes_to_pubkey`,
  the length-prefixed string reader `HeliusWSListener._read_string`,
  the binary CreateEvent decoder `HeliusWSListener._decode_create_event`
  (split into the per-buffer part `decode_event` and the log-scanning part
  `decode_create_event`), and the message handler
  `HeliusWSListener._process_message`;
* `optimized.py`: the Numba base58 encoder `bytes_to_pubkey_optimized`;
* `models.py`: the msgspec message structures and their decoding from JSON
  values.

Bytes are modelled as `Nat` (with explicit `< 256` hypotheses where the
value range matters), Python `str` as `List Char`, and fallible code as
`Option`.
-/

namespace Sniper

/-! ### Base58 codec (`helius_ws.py`, `HeliusWSListener._bytes_to_pubkey`) -/

/-- The base58 alphabet used by both encoders (`helius_ws.py` line 217 and
`optimized.py` `_BASE58_ALPHABET`). -/
def ALPHABET : List Char :=
  "123456789ABCDEFGHJKLMNPQRSTUVWXYZabcdefghijkmnopqrstuvwxyz".toList

/-- Big-endian interpretation of a byte list, `int.from_bytes(data, "big")`. -/
def bytesToNatBE (data : List Nat) : Nat :=
  data.foldl (fun acc b => acc * 256 + b) 0

/-- The `while num:` division loop of `_bytes_to_pubkey`, producing the base58
digit characters least-significant first.  Written with explicit fuel so that
it computes by kernel reduction; `num` itself is always enough fuel because
each division by 58 strictly decreases a positive number. -/
def b58loopFuel : Nat → Nat → List Char
  | 0, _ => []
  | fuel + 1, num =>
    if num = 0 then []
    else ALPHABET.getD (num % 58) '1' :: b58loopFuel fuel (num / 58)

/-- Digit characters of `num` in base 58, least-significant first. -/
def b58loop (num : Nat) : List Char := b58loopFuel num num

/-- The leading-zero-byte loop of `_bytes_to_pubkey` (`for byte in data: if
byte == 0 ... else break`). -/
def countLeadingZeroBytes : List Nat → Nat
  | [] => 0
  | b :: rest => if b = 0 then countLeadingZeroBytes rest + 1 else 0

/-- `HeliusWSListener._bytes_to_pubkey`: base58-encode a byte string.  The
Python code builds `result` as the digits least-significant first, appends one
`'1'` per leading zero byte, and reverses. -/
def bytes_to_pubkey (data : List Nat) : List Char :=
  (b58loop (bytesToNatBE data) ++
    List.replicate (countLeadingZeroBytes data) '1').reverse

/-! ### Numba base58 encoder (`optimized.py`)

The `@njit` kernels run in numba nopython mode, where the accumulator
`result = 0` and the parameter `num` are machine int64 values: arithmetic
wraps silently at 64 bits instead of promoting to Python's unbounded
integers.  We carry the unsigned 64-bit bit pattern of each int64 as a `Nat`
below `2 ^ 64`; a pattern at or above `2 ^ 63` is a negative signed value. -/

/-- The number of distinct int64 bit patterns, `2 ^ 64`. -/
def UINT64_SIZE : Nat := 18446744073709551616

/-- The first bit pattern that is negative as a signed int64, `2 ^ 63`. -/
def INT64_BOUND : Nat := 9223372036854775808

/-- `optimized._bytes_to_int`: big-endian byte fold using shift and or, as in
the Numba kernel (`result = (result << 8) | byte`); the shift of the int64
accumulator wraps at 64 bits, so we keep its bit pattern (oring a byte into
the zero low bits of the wrapped shift cannot overflow again). -/
def bytes_to_int (data : List Nat) : Nat :=
  data.foldl (fun acc b => ((acc <<< 8) % UINT64_SIZE) ||| b) 0

/-- `optimized._count_leading_zeros`. -/
def count_leading_zeros : List Nat → Nat
  | [] => 0
  | b :: rest => if b = 0 then count_leading_zeros rest + 1 else 0

/-- The division loop of `optimized._encode_base58_core` on a positive
value, producing alphabet indices least-significant first (fuel-driven, as
for `b58loopFuel`). -/
def encodeCoreDigitsFuel : Nat → Nat → List Nat
  | 0, _ => []
  | fuel + 1, num =>
    if num = 0 then []
    else num % 58 :: encodeCoreDigitsFuel fuel (num / 58)

/-- The `while num > 0` loop of `_encode_base58_core`, where `num` is a
signed int64 given by its bit pattern: a non-positive value (pattern zero or
at least `2 ^ 63`) fails the loop guard at once and yields no digits. -/
def encodeCoreDigits (num : Nat) : List Nat :=
  if num < INT64_BOUND then encodeCoreDigitsFuel num num else []

/-- `optimized._encode_base58_core`: the kernel writes the remainders into a
44-slot buffer right-to-left, prepends `leading_zeros` zero indices, and
returns the filled suffix `result[start:]`; this is exactly that suffix as a
list of indices. -/
def encode_base58_core (num leading_zeros : Nat) : List Nat :=
  List.replicate leading_zeros 0 ++ (encodeCoreDigits num).reverse

/-- `optimized.bytes_to_pubkey_optimized`: maps the indices through the
alphabet and joins. -/
def bytes_to_pubkey_optimized (data : List Nat) : List Char :=
  (encode_base58_core (bytes_to_int data) (count_leading_zeros data)).map
    (fun i => ALPHABET.getD i '1')

/-! ### Reference base58 decoder (from the spec, §8: big-endian integer
interpretation, one leading `'1'` per leading zero byte) -/

/-- Minimal big-endian byte representation of a natural number (fuel-driven;
the spec-side reference for turning the base58 integer back into bytes). -/
def natToBytesBEFuel : Nat → Nat → List Nat
  | 0, _ => []
  | fuel + 1, n =>
    if n = 0 then [] else natToBytesBEFuel fuel (n / 256) ++ [n % 256]

/-- Minimal big-endian byte representation of a natural number. -/
def natToBytesBE (n : Nat) : List Nat := natToBytesBEFuel n n

/-- Reference base58 decoder described by the spec: count the leading `'1'`
glyphs as zero bytes, read the whole string as a big-endian base58 integer,
and append that integer's big-endian bytes. -/
def base58RefDecode (s : List Char) : List Nat :=
  List.replicate (s.takeWhile (fun c => c = '1')).length 0 ++
    natToBytesBE (s.foldl (fun acc c => acc * 58 + ALPHABET.indexOf c) 0)

/-! ### UTF-8 (`bytes.decode("utf-8", errors="replace")` in `_read_string`) -/

/-- The Unicode replacement character substituted for malformed sequences. -/
def REPLACEMENT : Char := Char.ofNat 0xFFFD

/-- In-flight state of the UTF-8 decoding automaton: the scalar bits
accumulated so far, the number of continuation bytes still expected, and the
admissible range `[lo, hi)` for the next byte (the lead bytes `0xE0`, `0xED`,
`0xF0` and `0xF4` restrict their first continuation byte, which excludes
overlong forms, surrogates and values beyond `0x10FFFF`). -/
structure Utf8State where
  acc : Nat
  expected : Nat
  lo : Nat
  hi : Nat

/-- One-byte-at-a-time UTF-8 decoding automaton with replacement: `none`
state means a lead byte is expected. -/
def utf8Loop : Option Utf8State → List Nat → List Char
  | none, [] => []
  | some _, [] => [REPLACEMENT]
  | none, b :: rest =>
    if b < 0x80 then Char.ofNat b :: utf8Loop none rest
    else if 0xC2 ≤ b ∧ b < 0xE0 then
      utf8Loop (some ⟨b - 0xC0, 1, 0x80, 0xC0⟩) rest
    else if 0xE0 ≤ b ∧ b < 0xF0 then
      utf8Loop (some ⟨b - 0xE0, 2, if b = 0xE0 then 0xA0 else 0x80,
        if b = 0xED then 0xA0 else 0xC0⟩) rest
    else if 0xF0 ≤ b ∧ b < 0xF5 then
      utf8Loop (some ⟨b - 0xF0, 3, if b = 0xF0 then 0x90 else 0x80,
        if b = 0xF4 then 0x90 else 0xC0⟩) rest
    else REPLACEMENT :: utf8Loop none rest
  | some st, b :: rest =>
    if st.lo ≤ b ∧ b < st.hi then
      if st.expected = 1 then
        Char.ofNat (st.acc * 64 + (b - 0x80)) :: utf8Loop none rest
      else utf8Loop (some ⟨st.acc * 64 + (b - 0x80), st.expected - 1, 0x80, 0xC0⟩) rest
    else REPLACEMENT :: utf8Loop none rest

/-- Modelled from `bytes.decode("utf-8", errors="replace")`: decodes valid
UTF-8 sequences to their scalar values and substitutes `REPLACEMENT` for
malformed bytes (each offending byte is consumed with one replacement
character; no theorem below depends on that resynchronisation detail, only
on the exact decoding of valid sequences). -/
def utf8DecodeReplace (l : List Nat) : List Char := utf8Loop none l

/-- UTF-8 encoding of one scalar value. -/
def utf8EncodeChar (c : Char) : List Nat :=
  let n := c.toNat
  if n < 0x80 then [n]
  else if n < 0x800 then [0xC0 + n / 64, 0x80 + n % 64]
  else if n < 0x10000 then
    [0xE0 + n / 4096, 0x80 + n / 64 % 64, 0x80 + n % 64]
  else
    [0xF0 + n / 262144, 0x80 + n / 4096 % 64, 0x80 + n / 64 % 64, 0x80 + n % 64]

/-- UTF-8 encoding of a string. -/
def utf8Encode : List Char → List Nat
  | [] => []
  | c :: cs => utf8EncodeChar c ++ utf8Encode cs

/-! ### Binary CreateEvent decoder (`helius_ws.py`) -/

/-- `CREATE_EVENT_DISCRIMINATOR` from `helius_ws.py` line 19. -/
def CREATE_EVENT_DISCRIMINATOR : List Nat := [27, 114, 169, 77, 222, 235, 99, 118]

/-- Python slice `data[off : off + len]`. -/
def slice (data : List Nat) (off len : Nat) : List Nat := (data.drop off).take len

/-- Little-endian byte fold, as `struct.unpack_from("<I", ...)` reads it. -/
def leBytesToNat (l : List Nat) : Nat := l.foldr (fun b acc => b + 256 * acc) 0

/-- The four little-endian bytes of `n` (used to build test buffers). -/
def natToLE32 (n : Nat) : List Nat :=
  [n % 256, n / 256 % 256, n / 65536 % 256, n / 16777216 % 256]

/-- The 4-byte little-endian length that `_read_string` would decode at
`offset`. -/
def declared_length (data : List Nat) (offset : Nat) : Nat :=
  leBytesToNat (slice data offset 4)

/-- `HeliusWSListener._read_string`: reads a 4-byte little-endian length, then
that many bytes, decoded as UTF-8 with replacement; `none` models the raised
`ValueError`. -/
def read_string (data : List Nat) (offset : Nat) : Option (List Char × Nat) :=
  if offset + 4 > data.length then none
  else
    let length := leBytesToNat (slice data offset 4)
    if length > 1000 ∨ offset + 4 + length > data.length then none
    else some (utf8DecodeReplace (slice data (offset + 4) length), offset + 4 + length)

/-- The six decoded fields of a CreateEvent, in the order the tuple
`(mint, name, symbol, uri, bonding_curve, user)` is returned. -/
structure CreateEvent where
  mint : List Char
  name : List Char
  symbol : List Char
  uri : List Char
  bonding_curve : List Char
  user : List Char
deriving DecidableEq

/-- Outcome of decoding one candidate buffer inside
`_decode_create_event`: a decoded event, a `continue` on the
size/discriminator guards (`NotThisEvent`), or a `continue` via the caught
`ValueError`/`Exception` (`MalformedEvent`). -/
inductive DecodeResult where
  | event (e : CreateEvent)
  | notThisEvent
  | malformedEvent
deriving DecidableEq

/-- The per-buffer body of `HeliusWSListener._decode_create_event`
(lines 161-209): minimum size guard, discriminator guard, three
length-prefixed strings from offset 8, then three 32-byte keys rendered in
base58. -/
def decode_event (data : List Nat) : DecodeResult :=
  if data.length < 100 then .notThisEvent
  else if data.take 8 ≠ CREATE_EVENT_DISCRIMINATOR then .notThisEvent
  else
    match read_string data 8 with
    | none => .malformedEvent
    | some (name, o₁) =>
      match read_string data o₁ with
      | none => .malformedEvent
      | some (symbol, o₂) =>
        match read_string data o₂ with
        | none => .malformedEvent
        | some (uri, o₃) =>
          if o₃ + 32 > data.length then .malformedEvent
          else
            let mint := bytes_to_pubkey (slice data o₃ 32)
            if o₃ + 32 + 32 > data.length then .malformedEvent
            else
              let bonding_curve := bytes_to_pubkey (slice data (o₃ + 32) 32)
              if o₃ + 64 + 32 > data.length then .malformedEvent
              else
                let user := bytes_to_pubkey (slice data (o₃ + 64) 32)
                .event ⟨mint, name, symbol, uri, bonding_curve, user⟩

/-! ### Base64 (`base64.b64decode` in `_decode_create_event`) -/

/-- Value of one base64 alphabet character. -/
def b64CharVal (c : Char) : Option Nat :=
  if 'A' ≤ c ∧ c ≤ 'Z' then some (c.toNat - 65)
  else if 'a' ≤ c ∧ c ≤ 'z' then some (c.toNat - 71)
  else if '0' ≤ c ∧ c ≤ '9' then some (c.toNat + 4)
  else if c = '+' then some 62
  else if c = '/' then some 63
  else none

/-- Reassembles bytes from 6-bit groups; a dangling single group is a decode
error. -/
def b64Groups : List Nat → Option (List Nat)
  | [] => some []
  | v0 :: v1 :: v2 :: v3 :: rest =>
    (b64Groups rest).map fun tl =>
      (v0 * 4 + v1 / 16) :: (v1 % 16 * 16 + v2 / 4) :: (v2 % 4 * 64 + v3) :: tl
  | [v0, v1] => some [v0 * 4 + v1 / 16]
  | [v0, v1, v2] => some [v0 * 4 + v1 / 16, v1 % 16 * 16 + v2 / 4]
  | [_] => none

/-- Modelled from `base64.b64decode` on a Python `str`: non-ASCII input fails
(the implicit ascii encode raises), characters outside the alphabet are
discarded, the first padding character ends the data, and a dangling single
symbol is a decode error.  `none` models the raised exception caught at
`helius_ws.py` line 158. -/
def b64decode (s : List Char) : Option (List Nat) :=
  if s.any (fun c => 128 ≤ c.toNat) then none
  else b64Groups ((s.takeWhile (fun c => c ≠ '=')).filterMap b64CharVal)

/-! ### Log scanning (`_decode_create_event`, lines 151-211) -/

/-- The fixed log marker `PROGRAM_DATA_PREFIX = "Program data: "`. -/
def PROGRAM_DATA : List Char := "Program data: ".toList

/-- The pipeline applied to one candidate log line inside the scanning loop:
marker check, base64 decode, buffer decode; every `continue` is `none`. -/
def line_event (log : List Char) : Option CreateEvent :=
  if PROGRAM_DATA.isPrefixOf log then
    match b64decode (log.drop PROGRAM_DATA.length) with
    | none => none
    | some data =>
      match decode_event data with
      | .event e => some e
      | _ => none
  else none

/-- `HeliusWSListener._decode_create_event`: scan the log lines in order and
return the first successfully decoded event, or `None`. -/
def decode_create_event : List (List Char) → Option CreateEvent
  | [] => none
  | log :: rest =>
    match line_event log with
    | some e => some e
    | none => decode_create_event rest

/-! ### JSON envelope (`models.py` structures decoded by `msgspec`)

The transport hands `_process_message` raw bytes; `msgspec.json.Decoder`
parses them and maps them onto the `WebSocketMessage` structure, raising
`DecodeError` (caught at line 97) on unparseable bytes or on a structural
mismatch.  We model a parsed JSON tree explicitly (numbers as integers, which
covers every field the structures declare) and the structural mapping as
total functions into `Option`; a byte sequence that is not JSON at all is the
`none` case of `process_raw`'s argument. -/

inductive Json where
  | null
  | bool (b : Bool)
  | num (n : Int)
  | str (s : List Char)
  | arr (elements : List Json)
  | obj (fields : List (List Char × Json))

/-- Field lookup in a JSON object. -/
def jGet (fields : List (List Char × Json)) (key : List Char) : Option Json :=
  (fields.find? (fun kv => kv.1 = key)).map (fun kv => kv.2)

/-- `models.AccountKey`. -/
structure AccountKey where
  pubkey : List Char
  signer : Bool
  writable : Bool
  source : List Char

/-- `models.TransactionMessage`. -/
structure TransactionMessage where
  accountKeys : List AccountKey

/-- `models.Transaction`. -/
structure Transaction where
  message : TransactionMessage

/-- `models.TransactionMeta`. -/
structure TransactionMeta where
  logMessages : Option (List (List Char))
  err : Option (List (List Char × Json))

/-- `models.TransactionWrapper`. -/
structure TransactionWrapper where
  transaction : Transaction
  meta : TransactionMeta

/-- `models.TransactionResult`. -/
structure TransactionResult where
  signature : List Char
  transaction : TransactionWrapper

/-- `models.Params`. -/
structure Params where
  result : TransactionResult

/-- `models.WebSocketMessage`. -/
structure WebSocketMessage where
  jsonrpc : List Char
  method : Option (List Char)
  params : Option Params
  id : Option Int
  result : Option Int

/-- Decode a required `str` field. -/
def reqStr (fields : List (List Char × Json)) (key : List Char) : Option (List Char) :=
  match jGet fields key with
  | some (.str s) => some s
  | _ => none

/-- Decode a `str | None = None` field: absent or `null` is `None`, anything
but a string is a `DecodeError`. -/
def optStr (fields : List (List Char × Json)) (key : List Char) :
    Option (Option (List Char)) :=
  match jGet fields key with
  | none => some none
  | some .null => some none
  | some (.str s) => some (some s)
  | some _ => none

/-- Decode an `int | None = None` field. -/
def optInt (fields : List (List Char × Json)) (key : List Char) :
    Option (Option Int) :=
  match jGet fields key with
  | none => some none
  | some .null => some none
  | some (.num n) => some (some n)
  | some _ => none

/-- Decode a `bool = default` field. -/
def boolWithDefault (fields : List (List Char × Json)) (key : List Char)
    (dflt : Bool) : Option Bool :=
  match jGet fields key with
  | none => some dflt
  | some (.bool b) => some b
  | some _ => none

/-- Decode a `str = default` field. -/
def strWithDefault (fields : List (List Char × Json)) (key : List Char)
    (dflt : List Char) : Option (List Char) :=
  match jGet fields key with
  | none => some dflt
  | some (.str s) => some s
  | some _ => none

def decodeAccountKey : Json → Option AccountKey
  | .obj fields => do
    let pubkey ← reqStr fields "pubkey".toList
    let signer ← boolWithDefault fields "signer".toList false
    let writable ← boolWithDefault fields "writable".toList false
    let source ← strWithDefault fields "source".toList []
    pure ⟨pubkey, signer, writable, source⟩
  | _ => none

def decodeTransactionMessage : Json → Option TransactionMessage
  | .obj fields =>
    match jGet fields "accountKeys".toList with
    | some (.arr xs) => (xs.mapM decodeAccountKey).map TransactionMessage.mk
    | _ => none
  | _ => none

def decodeTransaction : Json → Option Transaction
  | .obj fields =>
    match jGet fields "message".toList with
    | some j => (decodeTransactionMessage j).map Transaction.mk
    | none => none
  | _ => none

/-- Decode a `list[str]` JSON value. -/
def decodeStrList : Json → Option (List (List Char))
  | .arr xs => xs.mapM fun j => match j with | .str s => some s | _ => none
  | _ => none

def decodeTransactionMeta : Json → Option TransactionMeta
  | .obj fields => do
    let logMessages ←
      match jGet fields "logMessages".toList with
      | none => some none
      | some .null => some none
      | some j => (decodeStrList j).map some
    let err ←
      match jGet fields "err".toList with
      | none => some none
      | some .null => some none
      | some (.obj efields) => some (some efields)
      | some _ => none
    pure ⟨logMessages, err⟩
  | _ => none

def decodeTransactionWrapper : Json → Option TransactionWrapper
  | .obj fields => do
    let tx ←
      match jGet fields "transaction".toList with
      | some j => decodeTransaction j
      | none => none
    let meta ←
      match jGet fields "meta".toList with
      | some j => decodeTransactionMeta j
      | none => none
    pure ⟨tx, meta⟩
  | _ => none

def decodeTransactionResult : Json → Option TransactionResult
  | .obj fields => do
    let signature ← reqStr fields "signature".toList
    let tx ←
      match jGet fields "transaction".toList with
      | some j => decodeTransactionWrapper j
      | none => none
    pure ⟨signature, tx⟩
  | _ => none

def decodeParams : Json → Option Params
  | .obj fields =>
    match jGet fields "result".toList with
    | some j => (decodeTransactionResult j).map Params.mk
    | none => none
  | _ => none

/-- The `msgspec.json.Decoder(WebSocketMessage)` structural mapping: required
fields must be present with the right type, optional fields default, unknown
fields are ignored. -/
def decodeWSMessage : Json → Option WebSocketMessage
  | .obj fields => do
    let jsonrpc ← strWithDefault fields "jsonrpc".toList "2.0".toList
    let method ← optStr fields "method".toList
    let params ←
      match jGet fields "params".toList with
      | none => some none
      | some .null => some none
      | some j => (decodeParams j).map some
    let id ← optInt fields "id".toList
    let result ← optInt fields "result".toList
    pure ⟨jsonrpc, method, params, id, result⟩
  | _ => none

/-! ### Message handling (`HeliusWSListener._process_message`) -/

/-- Observable outcome of `_process_message` on one frame: each constructor
is one of the early returns or the final dispatch
(`create_task(_execute_buy(mint, symbol))`). -/
inductive ProcResult where
  | unrecognized
  | subscriptionAck (id : Int)
  | ignored
  | droppedError
  | noEvent
  | noMatch (e : CreateEvent)
  | dispatch (mint symbol : List Char)
deriving DecidableEq

/-- Python `str.upper()` on the symbol (ASCII case mapping, which covers the
configured symbol alphabet). -/
def pyUpper (s : List Char) : List Char := s.map Char.toUpper

/-- Lines 102-138 of `_process_message`, after the envelope decode: ack
handling, error-flag drop, log scan, watch-set match and dispatch. -/
def handle_message (monitored : List (List Char)) (msg : WebSocketMessage) :
    ProcResult :=
  match msg.result, msg.params with
  | some r, none => .subscriptionAck r
  | none, none => .ignored
  | _, some p =>
    let meta := p.result.transaction.meta
    match meta.err with
    | some _ => .droppedError
    | none =>
      match decode_create_event (meta.logMessages.getD []) with
      | none => .noEvent
      | some e =>
        if pyUpper e.symbol ∉ monitored then .noMatch e
        else .dispatch e.mint e.symbol

/-- `_process_message` on a successfully parsed JSON tree. -/
def process_message (monitored : List (List Char)) (j : Json) : ProcResult :=
  match decodeWSMessage j with
  | none => .unrecognized
  | some msg => handle_message monitored msg

/-- `_process_message` on an arbitrary inbound byte sequence: `none` stands
for bytes that are not JSON at all, which `msgspec` rejects with the same
caught `DecodeError`. -/
def process_raw (monitored : List (List Char)) : Option Json → ProcResult
  | none => .unrecognized
  | some j => process_message monitored j

/-! ### Well-formed CreateEvent buffers (the §8 test-buffer layout) -/

/-- A well-formed CreateEvent buffer: discriminator, three length-prefixed
UTF-8 strings, three 32-byte keys, and arbitrary trailing bytes. -/
def mkCreateEventBuffer (name symbol uri : List Char)
    (k₁ k₂ k₃ trail : List Nat) : List Nat :=
  CREATE_EVENT_DISCRIMINATOR ++
    (natToLE32 (utf8Encode name).length ++ (utf8Encode name ++
      (natToLE32 (utf8Encode symbol).length ++ (utf8Encode symbol ++
        (natToLE32 (utf8Encode uri).length ++ (utf8Encode uri ++
          (k₁ ++ (k₂ ++ (k₃ ++ trail)))))))))

/-! ### Concrete witness data -/

/-- A log line carrying the base64 encoding of a well-formed CreateEvent
buffer (name "Token", symbol "TKN", uri "https://x", three all-zero keys). -/
def logTokenGood : List Char :=
  ("Program data: G3KpTd7rY3YFAAAAVG9rZW4DAAAAVEtOCQAAAGh0dHBzOi8veAAA" ++
   "AAAAAAAAAAAAAAAAAAAAAAAAAAAAAAAAAAAAAAAAAAAAAAAAAAAAAAAAAAAAAAAAAA" ++
   "AAAAAAAAAAAAAAAAAAAAAAAAAAAAAAAAAAAAAAAAAAAAAAAAAAAAAAAAAAAA==").toList

/-- A log line with the marker but a too-short payload (three zero bytes). -/
def logTokenBad : List Char := "Program data: AAAA".toList

/-- The event `logTokenGood` decodes to. -/
def eventToken : CreateEvent :=
  ⟨List.replicate 32 '1', "Token".toList, "TKN".toList, "https://x".toList,
   List.replicate 32 '1', List.replicate 32 '1'⟩

/-- A log line whose event has symbol "pepe" (name "Pepe", uri "u",
all-zero keys). -/
def logPepe : List Char :=
  ("Program data: G3KpTd7rY3YEAAAAUGVwZQQAAABwZXBlAQAAAHUAAAAAAAAAAAAA" ++
   "AAAAAAAAAAAAAAAAAAAAAAAAAAAAAAAAAAAAAAAAAAAAAAAAAAAAAAAAAAAAAAAAAA" ++
   "AAAAAAAAAAAAAAAAAAAAAAAAAAAAAAAAAAAAAAAAAAAAAAAAA=").toList

/-- The event `logPepe` decodes to. -/
def eventPepe : CreateEvent :=
  ⟨List.replicate 32 '1', "Pepe".toList, "pepe".toList, "u".toList,
   List.replicate 32 '1', List.replicate 32 '1'⟩

/-! Fuel-independence for the division loop. -/

theorem b58loopFuel_congr :
    ∀ f₁ f₂ num, num ≤ f₁ → num ≤ f₂ → b58loopFuel f₁ num = b58loopFuel f₂ num := by
  intro f₁
  induction f₁ with
  | zero =>
    intro f₂ num h₁ _
    interval_cases num
    cases f₂ <;> simp [b58loopFuel]
  | succ f ih =>
    intro f₂ num h₁ h₂
    match f₂, num with
    | f₂, 0 => cases f₂ <;> simp [b58loopFuel]
    | 0, num + 1 => omega
    | g + 1, num + 1 =>
      simp only [b58loopFuel, if_neg (Nat.succ_ne_zero num)]
      have hd : (num + 1) / 58 < num + 1 := Nat.div_lt_self (Nat.succ_pos num) (by norm_num)
      exact congrArg _ (ih g ((num + 1) / 58) (by omega) (by omega))

/-- Characteristic equation of `b58loop`. -/
theorem b58loop_eq (num : Nat) :
    b58loop num =
      if num = 0 then []
      else ALPHABET.getD (num % 58) '1' :: b58loop (num / 58) := by
  unfold b58loop
  match num with
  | 0 => simp [b58loopFuel]
  | n + 1 =>
    simp only [b58loopFuel, if_neg (Nat.succ_ne_zero n)]
    have hd : (n + 1) / 58 < n + 1 := Nat.div_lt_self (Nat.succ_pos n) (by norm_num)
    exact congrArg _ (b58loopFuel_congr n ((n + 1) / 58) ((n + 1) / 58) (by omega) le_rfl)

theorem encodeCoreDigitsFuel_congr :
    ∀ f₁ f₂ num, num ≤ f₁ → num ≤ f₂ →
      encodeCoreDigitsFuel f₁ num = encodeCoreDigitsFuel f₂ num := by
  intro f₁
  induction f₁ with
  | zero =>
    intro f₂ num h₁ _
    interval_cases num
    cases f₂ <;> simp [encodeCoreDigitsFuel]
  | succ f ih =>
    intro f₂ num h₁ h₂
    match f₂, num with
    | f₂, 0 => cases f₂ <;> simp [encodeCoreDigitsFuel]
    | 0, num + 1 => omega
    | g + 1, num + 1 =>
      simp only [encodeCoreDigitsFuel, if_neg (Nat.succ_ne_zero num)]
      have hd : (num + 1) / 58 < num + 1 := Nat.div_lt_self (Nat.succ_pos num) (by norm_num)
      exact congrArg _ (ih g ((num + 1) / 58) (by omega) (by omega))

/-- Characteristic equation of `encodeCoreDigits`. -/
theorem encodeCoreDigitsFuel_self_eq (num : Nat) :
    encodeCoreDigitsFuel num num =
      if num = 0 then [] else num % 58 :: encodeCoreDigitsFuel (num / 58) (num / 58) := by
  match num with
  | 0 => simp [encodeCoreDigitsFuel]
  | n + 1 =>
    simp only [encodeCoreDigitsFuel, if_neg (Nat.succ_ne_zero n)]
    have hd : (n + 1) / 58 < n + 1 := Nat.div_lt_self (Nat.succ_pos n) (by norm_num)
    exact congrArg _
      (encodeCoreDigitsFuel_congr n ((n + 1) / 58) ((n + 1) / 58) (by omega) le_rfl)

theorem natToBytesBEFuel_congr :
    ∀ f₁ f₂ n, n ≤ f₁ → n ≤ f₂ → natToBytesBEFuel f₁ n = natToBytesBEFuel f₂ n := by
  intro f₁
  induction f₁ with
  | zero =>
    intro f₂ n h₁ _
    interval_cases n
    cases f₂ <;> simp [natToBytesBEFuel]
  | succ f ih =>
    intro f₂ n h₁ h₂
    match f₂, n with
    | f₂, 0 => cases f₂ <;> simp [natToBytesBEFuel]
    | 0, n + 1 => omega
    | g + 1, n + 1 =>
      simp only [natToBytesBEFuel, if_neg (Nat.succ_ne_zero n)]
      have hd : (n + 1) / 256 < n + 1 := Nat.div_lt_self (Nat.succ_pos n) (by norm_num)
      rw [ih g ((n + 1) / 256) (by omega) (by omega)]

/-- Characteristic equation of `natToBytesBE`. -/
theorem natToBytesBE_eq (n : Nat) :
    natToBytesBE n =
      if n = 0 then [] else natToBytesBE (n / 256) ++ [n % 256] := by
  unfold natToBytesBE
  match n with
  | 0 => simp [natToBytesBEFuel]
  | m + 1 =>
    simp only [natToBytesBEFuel, if_neg (Nat.succ_ne_zero m)]
    have hd : (m + 1) / 256 < m + 1 := Nat.div_lt_self (Nat.succ_pos m) (by norm_num)
    rw [natToBytesBEFuel_congr m ((m + 1) / 256) ((m + 1) / 256) (by omega) le_rfl]

/-! ### Base58 roundtrip lemmas -/

theorem alphabet_indexOf_getD :
    ∀ r < 58, ALPHABET.indexOf (ALPHABET.getD r '1') = r := by decide

theorem alphabet_getD_ne_one :
    ∀ r, 1 ≤ r → r < 58 → ALPHABET.getD r '1' ≠ '1' := by decide

theorem alphabet_indexOf_one : ALPHABET.indexOf '1' = 0 := by decide

/-- Folding the base58 digit characters most-significant first recovers the
encoded number. -/
theorem b58_digits_foldl (n : Nat) :
    ∀ a, ((b58loop n).reverse).foldl (fun acc c => acc * 58 + ALPHABET.indexOf c) a =
      a * 58 ^ (b58loop n).length + n := by
  induction n using Nat.strong_induction_on with
  | _ n ih =>
    intro a
    rcases Nat.eq_zero_or_pos n with hn | hn
    · subst hn
      rw [b58loop_eq]
      simp
    · rw [b58loop_eq, if_neg (Nat.pos_iff_ne_zero.mp hn)]
      have hd : n / 58 < n := Nat.div_lt_self hn (by norm_num)
      rw [List.reverse_cons, List.foldl_append, ih (n / 58) hd a]
      simp only [List.foldl_cons, List.foldl_nil, List.length_cons]
      rw [alphabet_indexOf_getD (n % 58) (Nat.mod_lt n (by norm_num)), pow_succ]
      have hmod := Nat.div_add_mod n 58
      have hassoc : a * (58 ^ (b58loop (n / 58)).length * 58) =
          a * 58 ^ (b58loop (n / 58)).length * 58 := by ring
      rw [hassoc]
      set B := a * 58 ^ (b58loop (n / 58)).length with hB
      omega

/-- When the encoded number is positive, the most significant base58 digit is
not the zero glyph. -/
theorem b58loop_reverse_head (n : Nat) (hn : n ≠ 0) :
    ∃ c t, (b58loop n).reverse = c :: t ∧ c ≠ '1' := by
  induction n using Nat.strong_induction_on with
  | _ n ih =>
    rcases Nat.eq_zero_or_pos (n / 58) with h58 | h58
    · have hlt : n < 58 := by
        rcases Nat.lt_or_ge n 58 with h | h
        · exact h
        · exact absurd h58 (by have := Nat.div_le_div_right (c := 58) h; simp at this; omega)
      refine ⟨ALPHABET.getD (n % 58) '1', [], ?_, ?_⟩
      · rw [b58loop_eq, if_neg hn, h58, b58loop_eq]
        simp
      · exact alphabet_getD_ne_one (n % 58) (by omega) (Nat.mod_lt n (by omega))
    · have hd : n / 58 < n := Nat.div_lt_self (Nat.pos_of_ne_zero hn) (by norm_num)
      obtain ⟨c, t, heq, hne⟩ := ih (n / 58) hd (Nat.pos_iff_ne_zero.mp h58)
      refine ⟨c, t ++ [ALPHABET.getD (n % 58) '1'], ?_, hne⟩
      rw [b58loop_eq, if_neg hn, List.reverse_cons, heq]
      simp

theorem takeWhile_replicate_append (p : Char → Bool) (a : Char) (hpa : p a = true) :
    ∀ (k : Nat) (l : List Char),
      (List.replicate k a ++ l).takeWhile p = List.replicate k a ++ l.takeWhile p := by
  intro k
  induction k with
  | zero => simp
  | succ k ihk =>
    intro l
    rw [List.replicate_succ]
    simp only [List.cons_append, List.takeWhile_cons, hpa, if_true]
    rw [ihk l]

/-- Splitting a byte list at its leading zero bytes reassembles it. -/
theorem clz_decomp :
    ∀ data : List Nat,
      List.replicate (countLeadingZeroBytes data) 0 ++
        data.drop (countLeadingZeroBytes data) = data := by
  intro data
  induction data with
  | nil => simp [countLeadingZeroBytes]
  | cons b rest ihr =>
    by_cases hb : b = 0
    · subst hb
      simp only [countLeadingZeroBytes, if_pos rfl, if_true, eq_self_iff_true,
        List.replicate_succ, List.cons_append, List.drop_succ_cons]
      rw [ihr]
    · simp [countLeadingZeroBytes, hb]

/-- The byte after the leading zeros, when it exists, is nonzero. -/
theorem clz_drop_head :
    ∀ (data : List Nat) (b : Nat) (t : List Nat),
      data.drop (countLeadingZeroBytes data) = b :: t → b ≠ 0 := by
  intro data
  induction data with
  | nil => intro b t h; simp [countLeadingZeroBytes] at h
  | cons x rest ihr =>
    intro b t h
    by_cases hx : x = 0
    · subst hx
      simp only [countLeadingZeroBytes, if_pos rfl, if_true, eq_self_iff_true,
        List.drop_succ_cons] at h
      exact ihr b t h
    · simp only [countLeadingZeroBytes, if_neg hx, List.drop_zero] at h
      cases h
      exact hx

/-- Leading zero bytes do not change the big-endian value. -/
theorem bytesToNatBE_drop_zeros :
    ∀ data : List Nat,
      bytesToNatBE data = bytesToNatBE (data.drop (countLeadingZeroBytes data)) := by
  intro data
  induction data with
  | nil => rfl
  | cons x rest ihr =>
    by_cases hx : x = 0
    · subst hx
      simp only [countLeadingZeroBytes, if_pos rfl, if_true, eq_self_iff_true,
        List.drop_succ_cons]
      rw [← ihr]
      simp [bytesToNatBE]
    · simp [countLeadingZeroBytes, hx]

theorem bytesToNatBE_foldl_le :
    ∀ (l : List Nat) (acc : Nat), acc ≤ l.foldl (fun a b => a * 256 + b) acc := by
  intro l
  induction l with
  | nil => intro acc; exact le_rfl
  | cons b rest ihr =>
    intro acc
    calc acc ≤ acc * 256 + b := by omega
    _ ≤ _ := ihr (acc * 256 + b)

/-- Peeling the big-endian byte fold back off, digit by digit. -/
theorem natToBytesBE_foldl :
    ∀ (l : List Nat) (acc : Nat), (∀ b ∈ l, b < 256) → 0 < acc →
      natToBytesBE (l.foldl (fun a b => a * 256 + b) acc) = natToBytesBE acc ++ l := by
  intro l
  induction l with
  | nil => intro acc _ _; simp
  | cons b rest ihr =>
    intro acc hb hacc
    have hb256 : b < 256 := hb b (List.mem_cons_self b rest)
    have hrest : ∀ x ∈ rest, x < 256 := fun x hx => hb x (List.mem_cons_of_mem b hx)
    simp only [List.foldl_cons]
    rw [ihr (acc * 256 + b) hrest (by omega)]
    have hstep : natToBytesBE (acc * 256 + b) = natToBytesBE acc ++ [b] := by
      rw [natToBytesBE_eq (acc * 256 + b), if_neg (by omega)]
      have hdiv : (acc * 256 + b) / 256 = acc := by omega
      have hmod : (acc * 256 + b) % 256 = b := by omega
      rw [hdiv, hmod]
    rw [hstep, List.append_assoc]
    rfl

theorem natToBytesBE_single (b : Nat) (h0 : 0 < b) (h256 : b < 256) :
    natToBytesBE b = [b] := by
  rw [natToBytesBE_eq, if_neg (by omega)]
  have hdiv : b / 256 = 0 := Nat.div_eq_of_lt h256
  have hmod : b % 256 = b := Nat.mod_eq_of_lt h256
  rw [hdiv, hmod, natToBytesBE_eq, if_pos rfl]
  rfl

theorem foldl_b58val_replicate_one :
    ∀ k : Nat, (List.replicate k '1').foldl
      (fun acc c => acc * 58 + ALPHABET.indexOf c) 0 = 0 := by
  intro k
  induction k with
  | zero => rfl
  | succ k ihk =>
    rw [List.replicate_succ]
    simp only [List.foldl_cons, alphabet_indexOf_one]
    simpa using ihk

/-- Rewriting `bytes_to_pubkey` as leading glyphs followed by the digits
most-significant first. -/
theorem bytes_to_pubkey_decomp (data : List Nat) :
    bytes_to_pubkey data =
      List.replicate (countLeadingZeroBytes data) '1' ++
        (b58loop (bytesToNatBE data)).reverse := by
  unfold bytes_to_pubkey
  rw [List.reverse_append, List.reverse_replicate]

/-! ### UTF-8 roundtrip -/

/-- Decoding the UTF-8 bytes of one scalar value consumes exactly those bytes
and yields that character back. -/
theorem utf8_decode_encodeChar (c : Char) (t : List Nat) :
    utf8Loop none (utf8EncodeChar c ++ t) = c :: utf8Loop none t := by
  have hv : c.toNat < 0xd800 ∨ (0xdfff < c.toNat ∧ c.toNat < 0x110000) := c.valid
  by_cases h1 : c.toNat < 0x80
  · have he : utf8EncodeChar c = [c.toNat] := by
      unfold utf8EncodeChar; rw [if_pos h1]
    rw [he, List.singleton_append, utf8Loop, if_pos h1, Char.ofNat_toNat]
  · by_cases h2 : c.toNat < 0x800
    · have he : utf8EncodeChar c = [0xC0 + c.toNat / 64, 0x80 + c.toNat % 64] := by
        unfold utf8EncodeChar; rw [if_neg h1, if_pos h2]
      rw [he]
      show utf8Loop none ((0xC0 + c.toNat / 64) :: ((0x80 + c.toNat % 64) :: t)) = _
      rw [utf8Loop, if_neg (by omega), if_pos (by omega :
        0xC2 ≤ 0xC0 + c.toNat / 64 ∧ 0xC0 + c.toNat / 64 < 0xE0)]
      rw [utf8Loop]
      simp only
      rw [if_pos (by omega : (0x80:Nat) ≤ 0x80 + c.toNat % 64 ∧ 0x80 + c.toNat % 64 < 0xC0),
        if_true]
      have hval : (0xC0 + c.toNat / 64 - 0xC0) * 64 + (0x80 + c.toNat % 64 - 0x80)
          = c.toNat := by omega
      rw [hval, Char.ofNat_toNat]
    · by_cases h3 : c.toNat < 0x10000
      · have he : utf8EncodeChar c =
            [0xE0 + c.toNat / 4096, 0x80 + c.toNat / 64 % 64, 0x80 + c.toNat % 64] := by
          unfold utf8EncodeChar; rw [if_neg h1, if_neg h2, if_pos h3]
        rw [he]
        show utf8Loop none ((0xE0 + c.toNat / 4096) ::
          ((0x80 + c.toNat / 64 % 64) :: ((0x80 + c.toNat % 64) :: t))) = _
        rw [utf8Loop, if_neg (by omega),
          if_neg (by omega :
            ¬(0xC2 ≤ 0xE0 + c.toNat / 4096 ∧ 0xE0 + c.toNat / 4096 < 0xE0)),
          if_pos (by omega :
            0xE0 ≤ 0xE0 + c.toNat / 4096 ∧ 0xE0 + c.toNat / 4096 < 0xF0)]
        rw [utf8Loop]
        simp only
        rw [if_pos ?hc31]
        case hc31 =>
          constructor
          · split
            · omega
            · omega
          · split
            · omega
            · omega
        rw [if_neg (by norm_num)]
        rw [utf8Loop]
        simp only
        rw [if_pos (by omega :
            (0x80:Nat) ≤ 0x80 + c.toNat % 64 ∧ 0x80 + c.toNat % 64 < 0xC0),
          if_true]
        rw [show ((0xE0 + c.toNat / 4096 - 0xE0) * 64 +
            (0x80 + c.toNat / 64 % 64 - 0x80)) * 64 + (0x80 + c.toNat % 64 - 0x80)
            = c.toNat from by omega, Char.ofNat_toNat]
      · have he : utf8EncodeChar c =
            [0xF0 + c.toNat / 262144, 0x80 + c.toNat / 4096 % 64,
             0x80 + c.toNat / 64 % 64, 0x80 + c.toNat % 64] := by
          unfold utf8EncodeChar; rw [if_neg h1, if_neg h2, if_neg h3]
        rw [he]
        show utf8Loop none ((0xF0 + c.toNat / 262144) ::
          ((0x80 + c.toNat / 4096 % 64) :: ((0x80 + c.toNat / 64 % 64) ::
            ((0x80 + c.toNat % 64) :: t)))) = _
        rw [utf8Loop, if_neg (by omega),
          if_neg (by omega :
            ¬(0xC2 ≤ 0xF0 + c.toNat / 262144 ∧ 0xF0 + c.toNat / 262144 < 0xE0)),
          if_neg (by omega :
            ¬(0xE0 ≤ 0xF0 + c.toNat / 262144 ∧ 0xF0 + c.toNat / 262144 < 0xF0)),
          if_pos (by omega :
            0xF0 ≤ 0xF0 + c.toNat / 262144 ∧ 0xF0 + c.toNat / 262144 < 0xF5)]
        rw [utf8Loop]
        simp only
        rw [if_pos ?hc41]
        case hc41 =>
          constructor
          · split
            · omega
            · omega
          · split
            · omega
            · omega
        rw [if_neg (by norm_num)]
        rw [utf8Loop]
        simp only
        rw [if_pos (by omega :
            (0x80:Nat) ≤ 0x80 + c.toNat / 64 % 64 ∧ 0x80 + c.toNat / 64 % 64 < 0xC0),
          if_neg (by norm_num)]
        rw [utf8Loop]
        simp only
        rw [if_pos (by omega :
            (0x80:Nat) ≤ 0x80 + c.toNat % 64 ∧ 0x80 + c.toNat % 64 < 0xC0),
          if_true]
        rw [show (((0xF0 + c.toNat / 262144 - 0xF0) * 64 +
            (0x80 + c.toNat / 4096 % 64 - 0x80)) * 64 +
            (0x80 + c.toNat / 64 % 64 - 0x80)) * 64 + (0x80 + c.toNat % 64 - 0x80)
            = c.toNat from by omega, Char.ofNat_toNat]

/-- Decoding with replacement is exact on encoded strings. -/
theorem utf8_decode_encode (s : List Char) :
    utf8DecodeReplace (utf8Encode s) = s := by
  induction s with
  | nil => rfl
  | cons c cs ih =>
    show utf8Loop none (utf8EncodeChar c ++ utf8Encode cs) = c :: cs
    rw [utf8_decode_encodeChar]
    exact congrArg (c :: ·) ih

/-! ### `_read_string` lemmas -/

theorem leBytesToNat_natToLE32 (n : Nat) (h : n < 4294967296) :
    leBytesToNat (natToLE32 n) = n := by
  unfold natToLE32 leBytesToNat
  simp only [List.foldr_cons, List.foldr_nil]
  omega

theorem natToLE32_length (n : Nat) : (natToLE32 n).length = 4 := rfl

theorem read_string_short (data : List Nat) (offset : Nat)
    (h : offset + 4 > data.length) : read_string data offset = none := by
  unfold read_string
  rw [if_pos h]

theorem read_string_bad_length (data : List Nat) (offset : Nat)
    (h : declared_length data offset > 1000 ∨
      offset + 4 + declared_length data offset > data.length) :
    read_string data offset = none := by
  unfold read_string
  by_cases hshort : offset + 4 > data.length
  · rw [if_pos hshort]
  · rw [if_neg hshort]
    simp only
    unfold declared_length at h
    rw [if_pos h]

theorem read_string_some_bounds (data : List Nat) (offset : Nat)
    (s : List Char) (offset' : Nat)
    (h : read_string data offset = some (s, offset')) :
    offset + 4 ≤ data.length ∧
      declared_length data offset ≤ 1000 ∧
      offset' = offset + 4 + declared_length data offset ∧
      offset' ≤ data.length := by
  unfold read_string at h
  by_cases hshort : offset + 4 > data.length
  · rw [if_pos hshort] at h
    exact absurd h (by simp)
  · rw [if_neg hshort] at h
    simp only at h
    unfold declared_length
    by_cases hbad : leBytesToNat (slice data offset 4) > 1000 ∨
        offset + 4 + leBytesToNat (slice data offset 4) > data.length
    · rw [if_pos hbad] at h
      exact absurd h (by simp)
    · rw [if_neg hbad] at h
      simp only [Option.some_inj, Prod.mk.injEq] at h
      refine ⟨by omega, by omega, h.2.symm, by omega⟩

/-- Reading a length-prefixed string placed at offset `P.length` of a buffer
returns exactly that string. -/
theorem read_string_at (P bs R : List Nat) (hbs : bs.length ≤ 1000) :
    read_string (P ++ (natToLE32 bs.length ++ (bs ++ R))) P.length =
      some (utf8DecodeReplace bs, P.length + 4 + bs.length) := by
  set data := P ++ (natToLE32 bs.length ++ (bs ++ R)) with hdata
  have hlen : data.length = P.length + (4 + (bs.length + R.length)) := by
    simp [hdata, List.length_append, natToLE32_length]
  have hdrop : data.drop P.length = natToLE32 bs.length ++ (bs ++ R) := by
    rw [hdata, List.drop_left]
  have hslice4 : slice data P.length 4 = natToLE32 bs.length := by
    unfold slice
    rw [hdrop, List.take_left' (natToLE32_length bs.length)]
  have hL : declared_length data P.length = bs.length := by
    unfold declared_length
    rw [hslice4, leBytesToNat_natToLE32 bs.length (by omega)]
  have hdrop2 : data.drop (P.length + 4) = bs ++ R := by
    have : data = (P ++ natToLE32 bs.length) ++ (bs ++ R) := by
      rw [hdata, List.append_assoc]
    rw [this, List.drop_left' (by simp [List.length_append, natToLE32_length])]
  have hsliceL : slice data (P.length + 4) bs.length = bs := by
    unfold slice
    rw [hdrop2, List.take_left]
  unfold read_string
  rw [if_neg (by omega)]
  simp only
  unfold declared_length at hL
  rw [hL, if_neg (by omega), hsliceL]

/-! ### Decoding a well-formed buffer -/

theorem bytes_to_pubkey_ne_nil (data : List Nat) (hne : data ≠ []) :
    bytes_to_pubkey data ≠ [] := by
  rw [bytes_to_pubkey_decomp]
  intro hcontra
  rcases List.append_eq_nil.mp hcontra with ⟨hrep, hrev⟩
  obtain ⟨b, rest, rfl⟩ : ∃ b rest, data = b :: rest := by
    cases data with
    | nil => exact absurd rfl hne
    | cons b rest => exact ⟨b, rest, rfl⟩
  have hz : countLeadingZeroBytes (b :: rest) = 0 := by
    have h0 := congrArg List.length hrep
    simpa using h0
  have hb : b ≠ 0 := by
    intro hb0
    subst hb0
    simp [countLeadingZeroBytes] at hz
  have hloop : b58loop (bytesToNatBE (b :: rest)) = [] := by
    rwa [List.reverse_eq_nil_iff] at hrev
  have hpos : 0 < bytesToNatBE (b :: rest) := by
    have hle : b ≤ bytesToNatBE (b :: rest) := by
      have : bytesToNatBE (b :: rest) =
          rest.foldl (fun acc x => acc * 256 + x) b := by
        unfold bytesToNatBE
        simp
      rw [this]
      exact bytesToNatBE_foldl_le rest b
    omega
  rw [b58loop_eq, if_neg (by omega)] at hloop
  exact absurd hloop (by simp)

/-- Decoding a buffer in the CreateEvent wire format: discriminator, three
length-prefixed byte strings, three 32-byte keys, and arbitrary trailing
bytes. -/
theorem decode_event_format (s₁ s₂ s₃ k₁ k₂ k₃ trail : List Nat)
    (hs₁ : s₁.length ≤ 1000) (hs₂ : s₂.length ≤ 1000) (hs₃ : s₃.length ≤ 1000)
    (h₁ : k₁.length = 32) (h₂ : k₂.length = 32) (h₃ : k₃.length = 32) :
    decode_event
      (CREATE_EVENT_DISCRIMINATOR ++
        (natToLE32 s₁.length ++ (s₁ ++
          (natToLE32 s₂.length ++ (s₂ ++
            (natToLE32 s₃.length ++ (s₃ ++
              (k₁ ++ (k₂ ++ (k₃ ++ trail)))))))))) =
      .event ⟨bytes_to_pubkey k₁, utf8DecodeReplace s₁, utf8DecodeReplace s₂,
        utf8DecodeReplace s₃, bytes_to_pubkey k₂, bytes_to_pubkey k₃⟩ := by
  set B := CREATE_EVENT_DISCRIMINATOR ++
    (natToLE32 s₁.length ++ (s₁ ++
      (natToLE32 s₂.length ++ (s₂ ++
        (natToLE32 s₃.length ++ (s₃ ++
          (k₁ ++ (k₂ ++ (k₃ ++ trail))))))))) with hB
  have hlen : B.length = 116 + s₁.length + s₂.length + s₃.length + trail.length := by
    rw [hB]
    simp only [CREATE_EVENT_DISCRIMINATOR, List.length_append, List.length_cons,
      List.length_nil, natToLE32_length, h₁, h₂, h₃]
    omega
  have htake8 : B.take 8 = CREATE_EVENT_DISCRIMINATOR := by
    rw [hB]
    exact List.take_left' rfl
  have hread1 : read_string B 8 = some (utf8DecodeReplace s₁, 12 + s₁.length) := by
    rw [hB]
    have h := read_string_at CREATE_EVENT_DISCRIMINATOR s₁
      (natToLE32 s₂.length ++ (s₂ ++
        (natToLE32 s₃.length ++ (s₃ ++
          (k₁ ++ (k₂ ++ (k₃ ++ trail))))))) hs₁
    have hPl : CREATE_EVENT_DISCRIMINATOR.length = 8 := rfl
    rw [hPl] at h
    rw [show 12 + s₁.length = 8 + 4 + s₁.length from by omega]
    exact h
  have hassoc2 : B = (CREATE_EVENT_DISCRIMINATOR ++ natToLE32 s₁.length ++ s₁) ++
      (natToLE32 s₂.length ++ (s₂ ++
        (natToLE32 s₃.length ++ (s₃ ++
          (k₁ ++ (k₂ ++ (k₃ ++ trail))))))) := by
    rw [hB]
    simp [List.append_assoc]
  have hread2 : read_string B (12 + s₁.length) =
      some (utf8DecodeReplace s₂, 12 + s₁.length + 4 + s₂.length) := by
    rw [hassoc2]
    have h := read_string_at (CREATE_EVENT_DISCRIMINATOR ++ natToLE32 s₁.length ++ s₁) s₂
      (natToLE32 s₃.length ++ (s₃ ++ (k₁ ++ (k₂ ++ (k₃ ++ trail))))) hs₂
    have hPl : (CREATE_EVENT_DISCRIMINATOR ++ natToLE32 s₁.length ++ s₁).length =
        12 + s₁.length := by
      simp only [CREATE_EVENT_DISCRIMINATOR, List.length_append, List.length_cons,
        List.length_nil, natToLE32_length]
    rw [hPl] at h
    exact h
  have hassoc3 : B = (CREATE_EVENT_DISCRIMINATOR ++ natToLE32 s₁.length ++ s₁ ++
      natToLE32 s₂.length ++ s₂) ++
      (natToLE32 s₃.length ++ (s₃ ++ (k₁ ++ (k₂ ++ (k₃ ++ trail))))) := by
    rw [hB]
    simp [List.append_assoc]
  have hread3 : read_string B (12 + s₁.length + 4 + s₂.length) =
      some (utf8DecodeReplace s₃, 12 + s₁.length + 4 + s₂.length + 4 + s₃.length) := by
    rw [hassoc3]
    have h := read_string_at (CREATE_EVENT_DISCRIMINATOR ++ natToLE32 s₁.length ++ s₁ ++
      natToLE32 s₂.length ++ s₂) s₃ (k₁ ++ (k₂ ++ (k₃ ++ trail))) hs₃
    have hPl : (CREATE_EVENT_DISCRIMINATOR ++ natToLE32 s₁.length ++ s₁ ++
        natToLE32 s₂.length ++ s₂).length = 12 + s₁.length + 4 + s₂.length := by
      simp only [CREATE_EVENT_DISCRIMINATOR, List.length_append, List.length_cons,
        List.length_nil, natToLE32_length]
    rw [hPl] at h
    exact h
  have hassoc4 : B = (CREATE_EVENT_DISCRIMINATOR ++ natToLE32 s₁.length ++ s₁ ++
      natToLE32 s₂.length ++ s₂ ++ natToLE32 s₃.length ++ s₃) ++
      (k₁ ++ (k₂ ++ (k₃ ++ trail))) := by
    rw [hB]
    simp [List.append_assoc]
  have hdropE : B.drop (12 + s₁.length + 4 + s₂.length + 4 + s₃.length) =
      k₁ ++ (k₂ ++ (k₃ ++ trail)) := by
    rw [hassoc4]
    refine List.drop_left' ?_
    simp only [CREATE_EVENT_DISCRIMINATOR, List.length_append, List.length_cons,
      List.length_nil, natToLE32_length]
  have hslice1 : slice B (12 + s₁.length + 4 + s₂.length + 4 + s₃.length) 32 = k₁ := by
    unfold slice
    rw [hdropE]
    exact List.take_left' h₁
  have hdropE32 : B.drop (12 + s₁.length + 4 + s₂.length + 4 + s₃.length + 32) =
      k₂ ++ (k₃ ++ trail) := by
    rw [← List.drop_drop, hdropE]
    exact List.drop_left' h₁
  have hslice2 : slice B (12 + s₁.length + 4 + s₂.length + 4 + s₃.length + 32) 32 = k₂ := by
    unfold slice
    rw [hdropE32]
    exact List.take_left' h₂
  have hdropE64 : B.drop (12 + s₁.length + 4 + s₂.length + 4 + s₃.length + 64) =
      k₃ ++ trail := by
    rw [← List.drop_drop, hdropE,
      show k₁ ++ (k₂ ++ (k₃ ++ trail)) = (k₁ ++ k₂) ++ (k₃ ++ trail) from by
        simp [List.append_assoc]]
    refine List.drop_left' ?_
    simp [List.length_append, h₁, h₂]
  have hslice3 : slice B (12 + s₁.length + 4 + s₂.length + 4 + s₃.length + 64) 32 = k₃ := by
    unfold slice
    rw [hdropE64]
    exact List.take_left' h₃
  unfold decode_event
  rw [if_neg (by omega), if_neg (not_not_intro htake8)]
  simp only [hread1, hread2, hread3]
  rw [if_neg (by omega), if_neg (by omega), if_neg (by omega)]
  simp only [hslice1, hslice2, hslice3]

/-! ### Base58 roundtrip, assembled -/

/-- The reference decoder inverts `bytes_to_pubkey` on any byte string. -/
theorem base58_ref_roundtrip (data : List Nat) (hb : ∀ b ∈ data, b < 256) :
    base58RefDecode (bytes_to_pubkey data) = data := by
  rw [bytes_to_pubkey_decomp]
  set z := countLeadingZeroBytes data with hz
  set n := bytesToNatBE data with hn
  have hdecomp := clz_decomp data
  have hdrop := bytesToNatBE_drop_zeros data
  rcases hd : data.drop z with _ | ⟨b, t⟩
  · have hn0 : n = 0 := by
      rw [hn, hdrop, ← hz, hd]
      rfl
    rw [hn0, b58loop_eq, if_pos rfl]
    simp only [List.reverse_nil, List.append_nil]
    unfold base58RefDecode
    have htw := takeWhile_replicate_append (fun c => c = '1') '1' (by decide) z []
    simp only [List.append_nil, List.takeWhile_nil] at htw
    rw [htw, List.length_replicate, foldl_b58val_replicate_one, natToBytesBE_eq,
      if_pos rfl, List.append_nil]
    rw [← hdecomp, hd, List.append_nil]
  · have hbne : b ≠ 0 := clz_drop_head data b t (by rw [← hz]; exact hd)
    have hble : ∀ x ∈ (b :: t), x < 256 := by
      intro x hx
      refine hb x (List.mem_of_mem_drop (n := z) ?_)
      rw [hd]
      exact hx
    have hnval : n = bytesToNatBE (b :: t) := by rw [hn, hdrop, ← hz, hd]
    have hnpos : 0 < n := by
      have hle : b ≤ bytesToNatBE (b :: t) := by
        have hstep : bytesToNatBE (b :: t) =
            t.foldl (fun acc x => acc * 256 + x) b := by
          unfold bytesToNatBE
          simp
        rw [hstep]
        exact bytesToNatBE_foldl_le t b
      omega
    obtain ⟨c, tc, hrev, hcne⟩ := b58loop_reverse_head n (by omega)
    rw [hrev]
    unfold base58RefDecode
    rw [takeWhile_replicate_append (fun c => c = '1') '1' (by decide) z (c :: tc)]
    have htwc : (c :: tc).takeWhile (fun c' => c' = '1') = [] := by
      simp [List.takeWhile_cons, hcne]
    rw [htwc, List.append_nil, List.length_replicate, List.foldl_append,
      foldl_b58val_replicate_one, ← hrev, b58_digits_foldl n 0]
    have hbytes : natToBytesBE (0 * 58 ^ (b58loop n).length + n) = b :: t := by
      rw [Nat.zero_mul, Nat.zero_add, hnval]
      have hstep : bytesToNatBE (b :: t) =
          t.foldl (fun acc x => acc * 256 + x) b := by
        unfold bytesToNatBE
        simp
      rw [hstep,
        natToBytesBE_foldl t b (fun x hx => hble x (List.mem_cons_of_mem b hx)) (by omega),
        natToBytesBE_single b (by omega) (hble b (List.mem_cons_self b t))]
      rfl
    rw [hbytes, ← hd, hdecomp]

/-! ### Equivalence of the two base58 encoders -/

theorem shiftLeft_or_byte (a bb : Nat) (hbb : bb < 256) :
    (a <<< 8) ||| bb = a * 256 + bb := by
  have h28 : (2 : Nat) ^ 8 = 256 := by norm_num
  rw [Nat.shiftLeft_eq, h28, Nat.mul_comm a 256]
  rw [show (256 : Nat) = 2 ^ 8 from by norm_num]
  exact (Nat.mul_add_lt_is_or (by omega) a).symm

/-- As long as the running big-endian value stays below `2 ^ 63`, the
wrapping int64 fold agrees with the unbounded fold: each shifted
accumulator is bounded by the final value, so the 64-bit reduction is the
identity. -/
theorem foldl_wrap_eq :
    ∀ (l : List Nat) (acc : Nat), (∀ x ∈ l, x < 256) →
      l.foldl (fun a b => a * 256 + b) acc < INT64_BOUND →
      l.foldl (fun a b => ((a <<< 8) % UINT64_SIZE) ||| b) acc =
        l.foldl (fun a b => a * 256 + b) acc := by
  intro l
  induction l with
  | nil => intro acc _ _; rfl
  | cons b rest ih =>
    intro acc hx hfin
    have hb256 : b < 256 := hx b (List.mem_cons_self b rest)
    have hrest : ∀ x ∈ rest, x < 256 := fun x hxx => hx x (List.mem_cons_of_mem b hxx)
    simp only [List.foldl_cons] at hfin ⊢
    have hstep : acc * 256 + b ≤ rest.foldl (fun a x => a * 256 + x) (acc * 256 + b) :=
      bytesToNatBE_foldl_le rest (acc * 256 + b)
    have hshift : (acc <<< 8) % UINT64_SIZE = acc <<< 8 := by
      refine Nat.mod_eq_of_lt ?_
      rw [Nat.shiftLeft_eq, show (2 : Nat) ^ 8 = 256 from by norm_num]
      unfold UINT64_SIZE
      unfold INT64_BOUND at hfin
      omega
    rw [hshift, shiftLeft_or_byte acc b hb256]
    exact ih (acc * 256 + b) hrest hfin

/-- On inputs whose big-endian value is a positive signed int64, the numba
accumulator never wraps and `_bytes_to_int` computes the true value. -/
theorem bytes_to_int_eq (data : List Nat) (hb : ∀ b ∈ data, b < 256)
    (hsmall : bytesToNatBE data < INT64_BOUND) :
    bytes_to_int data = bytesToNatBE data := by
  unfold bytes_to_int bytesToNatBE
  exact foldl_wrap_eq data 0 hb hsmall

theorem count_leading_zeros_eq :
    ∀ data : List Nat, count_leading_zeros data = countLeadingZeroBytes data := by
  intro data
  induction data with
  | nil => rfl
  | cons b rest ih =>
    unfold count_leading_zeros countLeadingZeroBytes
    rw [ih]

theorem encodeCoreDigitsFuel_map (num : Nat) :
    (encodeCoreDigitsFuel num num).map (fun i => ALPHABET.getD i '1') = b58loop num := by
  induction num using Nat.strong_induction_on with
  | _ num ih =>
    rw [encodeCoreDigitsFuel_self_eq, b58loop_eq]
    by_cases hnum : num = 0
    · rw [if_pos hnum, if_pos hnum]
      rfl
    · rw [if_neg hnum, if_neg hnum, List.map_cons,
        ih (num / 58) (Nat.div_lt_self (Nat.pos_of_ne_zero hnum) (by norm_num))]

/-- For positive signed int64 patterns, the `while num > 0` loop produces
exactly the digits of the pure encoder's division loop. -/
theorem encodeCoreDigits_map (num : Nat) (h : num < INT64_BOUND) :
    (encodeCoreDigits num).map (fun i => ALPHABET.getD i '1') = b58loop num := by
  unfold encodeCoreDigits
  rw [if_pos h]
  exact encodeCoreDigitsFuel_map num

/-- The Numba encoder agrees with the pure-Python encoder whenever the key
value fits in a positive signed int64, so the compiled pipeline never
wraps. -/
theorem bytes_to_pubkey_optimized_eq (data : List Nat)
    (hb : ∀ b ∈ data, b < 256)
    (hsmall : bytesToNatBE data < INT64_BOUND) :
    bytes_to_pubkey_optimized data = bytes_to_pubkey data := by
  unfold bytes_to_pubkey_optimized encode_base58_core
  rw [bytes_to_int_eq data hb hsmall, count_leading_zeros_eq data, List.map_append,
    List.map_replicate, List.map_reverse, encodeCoreDigits_map _ hsmall,
    bytes_to_pubkey_decomp, show ALPHABET.getD 0 '1' = '1' from rfl]

/-! ### Log scanning and message handling lemmas -/

/-- The scanning loop is exactly a first-success search over the per-line
pipeline. -/
theorem decode_create_event_findSome (logs : List (List Char)) :
    decode_create_event logs = logs.findSome? line_event := by
  induction logs with
  | nil => rfl
  | cons log rest ih =>
    unfold decode_create_event
    rw [List.findSome?_cons]
    cases h : line_event log <;> simp [h, ih]

/-- When the decoded message carries params, `_process_message` skips the
subscription-ack branch and runs the transaction body, whatever the `result`
field holds. -/
theorem handle_message_some_params (W : List (List Char)) (jsonrpc : List Char)
    (method : Option (List Char)) (id result : Option Int) (p : Params) :
    handle_message W ⟨jsonrpc, method, some p, id, result⟩ =
      (match p.result.transaction.meta.err with
       | some _ => .droppedError
       | none =>
         match decode_create_event (p.result.transaction.meta.logMessages.getD []) with
         | none => .noEvent
         | some e =>
           if pyUpper e.symbol ∉ W then .noMatch e else .dispatch e.mint e.symbol) := by
  cases result <;> rfl

/-! ### Claims -/

/-- Claim C1: for every well-formed buffer — the 8-byte CreateEvent
discriminator, three length-prefixed UTF-8 strings, three 32-byte keys, and
arbitrary ignored trailing bytes — `decode_event` succeeds and returns all
six fields, the strings verbatim and the keys as non-empty base58 strings. -/
theorem claim_C1 (name symbol uri : List Char) (k₁ k₂ k₃ trail : List Nat)
    (hn : (utf8Encode name).length ≤ 1000)
    (hs : (utf8Encode symbol).length ≤ 1000)
    (hu : (utf8Encode uri).length ≤ 1000)
    (h₁ : k₁.length = 32) (h₂ : k₂.length = 32) (h₃ : k₃.length = 32) :
    decode_event (mkCreateEventBuffer name symbol uri k₁ k₂ k₃ trail) =
      .event ⟨bytes_to_pubkey k₁, name, symbol, uri,
        bytes_to_pubkey k₂, bytes_to_pubkey k₃⟩ ∧
    bytes_to_pubkey k₁ ≠ [] ∧ bytes_to_pubkey k₂ ≠ [] ∧ bytes_to_pubkey k₃ ≠ [] := by
  refine ⟨?_, ?_, ?_, ?_⟩
  · have h := decode_event_format (utf8Encode name) (utf8Encode symbol) (utf8Encode uri)
      k₁ k₂ k₃ trail hn hs hu h₁ h₂ h₃
    rw [utf8_decode_encode, utf8_decode_encode, utf8_decode_encode] at h
    exact h
  · exact bytes_to_pubkey_ne_nil k₁ (by intro he; rw [he] at h₁; simp at h₁)
  · exact bytes_to_pubkey_ne_nil k₂ (by intro he; rw [he] at h₂; simp at h₂)
  · exact bytes_to_pubkey_ne_nil k₃ (by intro he; rw [he] at h₃; simp at h₃)

/-- Witness for C1 at a concrete well-formed buffer with trailing bytes. -/
theorem claim_C1_witness :
    decode_event (mkCreateEventBuffer "MyToken".toList "MTK".toList
        "https://example".toList (List.replicate 32 0)
        (List.replicate 31 0 ++ [1]) (1 :: List.replicate 31 0) [7, 7]) =
      .event ⟨bytes_to_pubkey (List.replicate 32 0), "MyToken".toList, "MTK".toList,
        "https://example".toList, bytes_to_pubkey (List.replicate 31 0 ++ [1]),
        bytes_to_pubkey (1 :: List.replicate 31 0)⟩ ∧
    bytes_to_pubkey (List.replicate 32 0) ≠ [] ∧
    bytes_to_pubkey (List.replicate 31 0 ++ [1]) ≠ [] ∧
    bytes_to_pubkey (1 :: List.replicate 31 0) ≠ [] :=
  claim_C1 "MyToken".toList "MTK".toList "https://example".toList
    (List.replicate 32 0) (List.replicate 31 0 ++ [1]) (1 :: List.replicate 31 0)
    [7, 7] (by decide) (by decide) (by decide) (by decide) (by decide) (by decide)

/-- Claim C2: for every 32-byte input, the base58 output of
`bytes_to_pubkey` decodes back to the input through the reference decoder,
and the all-zero 32-byte input encodes to 32 zero glyphs. -/
theorem claim_C2 :
    (∀ data : List Nat, data.length = 32 → (∀ b ∈ data, b < 256) →
      base58RefDecode (bytes_to_pubkey data) = data) ∧
    bytes_to_pubkey (List.replicate 32 0) = List.replicate 32 '1' :=
  ⟨fun data _ hb => base58_ref_roundtrip data hb, by decide⟩

/-- Witness for C2 at a concrete 32-byte key. -/
theorem claim_C2_witness :
    base58RefDecode (bytes_to_pubkey (List.replicate 31 0 ++ [255])) =
      List.replicate 31 0 ++ [255] :=
  claim_C2.1 (List.replicate 31 0 ++ [255]) (by decide) (by decide)

/-- Claim C3: log lines are scanned in order as a first-success search (so a
line that fails to decode never aborts the scan, and at most one event — the
first decodable one — is produced per transaction); in particular with two
lines of which only the second decodes, the event of the second is returned
and, when its symbol is watched, dispatched exactly once. -/
theorem claim_C3 :
    (∀ logs : List (List Char), decode_create_event logs = logs.findSome? line_event) ∧
    (∀ (l₁ l₂ : List Char) (e : CreateEvent),
      line_event l₁ = none → line_event l₂ = some e →
      decode_create_event [l₁, l₂] = some e) ∧
    (∀ (W : List (List Char)) (jsonrpc : List Char) (method : Option (List Char))
       (id result : Option Int) (sig : List Char) (tx : Transaction)
       (l₁ l₂ : List Char) (e : CreateEvent),
      line_event l₁ = none → line_event l₂ = some e → pyUpper e.symbol ∈ W →
      handle_message W ⟨jsonrpc, method, some ⟨⟨sig, ⟨tx, ⟨some [l₁, l₂], none⟩⟩⟩⟩,
        id, result⟩ = .dispatch e.mint e.symbol) := by
  refine ⟨decode_create_event_findSome, ?_, ?_⟩
  · intro l₁ l₂ e h₁ h₂
    unfold decode_create_event
    rw [h₁]
    unfold decode_create_event
    rw [h₂]
  · intro W jsonrpc method id result sig tx l₁ l₂ e h₁ h₂ hW
    rw [handle_message_some_params]
    simp only [Option.getD_some]
    unfold decode_create_event
    rw [h₁]
    unfold decode_create_event
    rw [h₂]
    simp only
    rw [if_neg (not_not_intro hW)]

set_option maxRecDepth 10000 in
/-- Witness for C3: a malformed candidate line followed by a valid one
dispatches exactly the second line's event. -/
theorem claim_C3_witness :
    handle_message ["TKN".toList]
      ⟨"2.0".toList, none,
        some ⟨⟨"sig".toList, ⟨⟨⟨[]⟩⟩, ⟨some [logTokenBad, logTokenGood], none⟩⟩⟩⟩,
        none, none⟩ = .dispatch eventToken.mint eventToken.symbol :=
  claim_C3.2.2 ["TKN".toList] "2.0".toList none none none "sig".toList ⟨⟨[]⟩⟩
    logTokenBad logTokenGood eventToken (by decide) (by decide) (by decide)

/-- Claim C4: `read_string` fails (raising the caught `ValueError`) exactly
when fewer than 4 bytes remain for the length field, the declared length
exceeds 1000, or the declared bytes overrun the buffer; a successful read
stays within bounds; and any such failure makes `decode_event` return
`MalformedEvent`. -/
theorem claim_C4 :
    (∀ (data : List Nat) (offset : Nat), offset + 4 > data.length →
      read_string data offset = none) ∧
    (∀ (data : List Nat) (offset : Nat),
      declared_length data offset > 1000 ∨
        offset + 4 + declared_length data offset > data.length →
      read_string data offset = none) ∧
    (∀ (data : List Nat) (offset : Nat) (s : List Char) (offset' : Nat),
      read_string data offset = some (s, offset') →
      offset + 4 ≤ data.length ∧ declared_length data offset ≤ 1000 ∧
        offset' = offset + 4 + declared_length data offset ∧ offset' ≤ data.length) ∧
    (∀ data : List Nat, ¬ data.length < 100 →
      data.take 8 = CREATE_EVENT_DISCRIMINATOR →
      (read_string data 8 = none → decode_event data = .malformedEvent) ∧
      (∀ s₁ o₁, read_string data 8 = some (s₁, o₁) → read_string data o₁ = none →
        decode_event data = .malformedEvent) ∧
      (∀ s₁ o₁ s₂ o₂, read_string data 8 = some (s₁, o₁) →
        read_string data o₁ = some (s₂, o₂) → read_string data o₂ = none →
        decode_event data = .malformedEvent)) := by
  refine ⟨read_string_short, read_string_bad_length, read_string_some_bounds, ?_⟩
  intro data h100 hdisc
  refine ⟨?_, ?_, ?_⟩
  · intro hr
    unfold decode_event
    rw [if_neg h100, if_neg (not_not_intro hdisc), hr]
  · intro s₁ o₁ hr₁ hr₂
    unfold decode_event
    rw [if_neg h100, if_neg (not_not_intro hdisc)]
    simp only [hr₁, hr₂]
  · intro s₁ o₁ s₂ o₂ hr₁ hr₂ hr₃
    unfold decode_event
    rw [if_neg h100, if_neg (not_not_intro hdisc)]
    simp only [hr₁, hr₂, hr₃]

/-- Witness for C4: a declared length of 65535 makes the read fail. -/
theorem claim_C4_witness :
    read_string (List.replicate 8 0 ++ [255, 255, 0, 0]) 8 = none :=
  claim_C4.2.1 (List.replicate 8 0 ++ [255, 255, 0, 0]) 8 (by decide)

/-- Claim C5: a buffer shorter than 100 bytes, or one whose first 8 bytes
differ from the CreateEvent discriminator, decodes to `NotThisEvent`. -/
theorem claim_C5 (data : List Nat) :
    (data.length < 100 → decode_event data = .notThisEvent) ∧
    (data.take 8 ≠ CREATE_EVENT_DISCRIMINATOR → decode_event data = .notThisEvent) := by
  constructor
  · intro h
    unfold decode_event
    rw [if_pos h]
  · intro h
    unfold decode_event
    by_cases h100 : data.length < 100
    · rw [if_pos h100]
    · rw [if_neg h100, if_pos h]

/-- Witness for C5 at a 50-byte buffer. -/
theorem claim_C5_witness : decode_event (List.replicate 50 7) = .notThisEvent :=
  (claim_C5 (List.replicate 50 7)).1 (by decide)

/-- Claim C6: a notification whose error flag is non-null is dropped — the
outcome is `droppedError` whatever the log lines hold, so no event decode is
attempted and no dispatch occurs. -/
theorem claim_C6 (W : List (List Char)) (jsonrpc : List Char)
    (method : Option (List Char)) (id result : Option Int) (sig : List Char)
    (tx : Transaction) (logs : Option (List (List Char)))
    (e : List (List Char × Json)) :
    handle_message W ⟨jsonrpc, method, some ⟨⟨sig, ⟨tx, ⟨logs, some e⟩⟩⟩⟩, id, result⟩ =
      .droppedError ∧
    ∀ mint symbol : List Char, ProcResult.droppedError ≠ .dispatch mint symbol := by
  constructor
  · rw [handle_message_some_params]
  · intro mint symbol h
    exact absurd h (by simp)

/-- Witness for C6: an errored transaction with a decodable log line is
still dropped. -/
theorem claim_C6_witness :
    handle_message []
      ⟨"2.0".toList, none,
        some ⟨⟨"sig".toList, ⟨⟨⟨[]⟩⟩, ⟨some [logTokenGood], some []⟩⟩⟩⟩,
        none, none⟩ = .droppedError :=
  (claim_C6 [] "2.0".toList none none none "sig".toList ⟨⟨[]⟩⟩
    (some [logTokenGood]) []).1

/-- Claim C7: with a decoded event in hand, dispatch fires exactly when the
uppercased symbol is in the watch set; "pepe" matches {"PEPE"} while "PEPE2"
does not. -/
theorem claim_C7 :
    (∀ (W : List (List Char)) (jsonrpc : List Char) (method : Option (List Char))
       (id result : Option Int) (sig : List Char) (tx : Transaction)
       (logs : Option (List (List Char))) (e : CreateEvent),
      decode_create_event (logs.getD []) = some e →
      (handle_message W ⟨jsonrpc, method, some ⟨⟨sig, ⟨tx, ⟨logs, none⟩⟩⟩⟩, id, result⟩ =
          .dispatch e.mint e.symbol ↔ pyUpper e.symbol ∈ W)) ∧
    pyUpper "pepe".toList ∈ ["PEPE".toList] ∧
    pyUpper "PEPE2".toList ∉ ["PEPE".toList] := by
  refine ⟨?_, by decide, by decide⟩
  intro W jsonrpc method id result sig tx logs e hdec
  rw [handle_message_some_params]
  simp only
  rw [hdec]
  simp only
  by_cases hm : pyUpper e.symbol ∈ W
  · rw [if_neg (not_not_intro hm)]
    simp [hm]
  · rw [if_pos hm]
    simp [hm]

set_option maxRecDepth 10000 in
/-- Witness for C7: the "pepe" event against watch set {"PEPE"}
dispatches. -/
theorem claim_C7_witness :
    handle_message ["PEPE".toList]
      ⟨"2.0".toList, none, some ⟨⟨"sig".toList, ⟨⟨⟨[]⟩⟩, ⟨some [logPepe], none⟩⟩⟩⟩,
        none, none⟩ = .dispatch eventPepe.mint eventPepe.symbol :=
  (claim_C7.1 ["PEPE".toList] "2.0".toList none none none "sig".toList ⟨⟨[]⟩⟩
    (some [logPepe]) eventPepe (by decide)).mpr (by decide)

/-- Claim C8: envelope decoding is total — non-JSON bytes and structurally
incomplete JSON both end in the silently discarded `unrecognized` outcome, a
message with only a numeric result is a subscription ack with no transaction
processing, and an absent log-line list behaves exactly like the empty
list. -/
theorem claim_C8 :
    (∀ W : List (List Char), process_raw W none = .unrecognized) ∧
    (∀ (W : List (List Char)) (j : Json), decodeWSMessage j = none →
      process_raw W (some j) = .unrecognized) ∧
    (∀ (W : List (List Char)) (j : Json) (msg : WebSocketMessage) (r : Int),
      decodeWSMessage j = some msg → msg.result = some r → msg.params = none →
      process_raw W (some j) = .subscriptionAck r) ∧
    (∀ (W : List (List Char)) (jsonrpc : List Char) (method : Option (List Char))
       (id result : Option Int) (sig : List Char) (tx : Transaction)
       (err : Option (List (List Char × Json))),
      handle_message W ⟨jsonrpc, method, some ⟨⟨sig, ⟨tx, ⟨none, err⟩⟩⟩⟩, id, result⟩ =
      handle_message W ⟨jsonrpc, method, some ⟨⟨sig, ⟨tx, ⟨some [], err⟩⟩⟩⟩, id, result⟩) := by
  refine ⟨fun _ => rfl, ?_, ?_, ?_⟩
  · intro W j h
    unfold process_raw process_message
    simp only [h]
  · intro W j msg r hdec hres hpar
    unfold process_raw process_message
    simp only [hdec]
    cases msg with
    | mk jsonrpc method params id result =>
      simp only at hres hpar
      subst hres
      subst hpar
      rfl
  · intro W jsonrpc method id result sig tx err
    cases result <;> cases err <;> rfl

/-- Witness for C8: a result-only message is acknowledged. -/
theorem claim_C8_witness :
    process_raw [] (some (Json.obj [("id".toList, Json.num 1),
      ("result".toList, Json.num 42)])) = .subscriptionAck 42 :=
  claim_C8.2.2.1 [] (Json.obj [("id".toList, Json.num 1), ("result".toList, Json.num 42)])
    ⟨"2.0".toList, none, none, some 1, some 42⟩ 42 rfl rfl rfl

/-- Claim C10, counterexample to the claim as stated: the 32-byte key with
big-endian value `2 ^ 248` is a valid input on which the Numba encoder's
int64 accumulator wraps to zero, so it returns the empty string while the
pure-Python encoder returns the correct non-empty base58 string. -/
theorem claim_C10_counterexample :
    (1 :: List.replicate 31 0).length = 32 ∧
    (∀ b ∈ 1 :: List.replicate 31 0, b < 256) ∧
    bytes_to_pubkey_optimized (1 :: List.replicate 31 0) = [] ∧
    bytes_to_pubkey (1 :: List.replicate 31 0) ≠ [] ∧
    bytes_to_pubkey_optimized (1 :: List.replicate 31 0) ≠
      bytes_to_pubkey (1 :: List.replicate 31 0) := by decide

/-- Claim C10, amended: on 32-byte inputs whose big-endian value is below
`2 ^ 63` — so the compiled int64 pipeline never wraps — the Numba-optimized
base58 encoder returns exactly the same string as the pure-Python encoder;
for larger values the accumulator wraps and the encoders disagree (see the
counterexample). -/
theorem claim_C10 (data : List Nat) (_hlen : data.length = 32)
    (hb : ∀ b ∈ data, b < 256)
    (hsmall : bytesToNatBE data < INT64_BOUND) :
    bytes_to_pubkey_optimized data = bytes_to_pubkey data :=
  bytes_to_pubkey_optimized_eq data hb hsmall

/-- Witness for C10 at a concrete 32-byte key within the int64 range. -/
theorem claim_C10_witness :
    bytes_to_pubkey_optimized (List.replicate 31 0 ++ [7]) =
      bytes_to_pubkey (List.replicate 31 0 ++ [7]) :=
  claim_C10 (List.replicate 31 0 ++ [7]) (by decide) (by decide) (by decide)

end Sniper
